import Mathlib

/-
Verification of the tic-tac-toe game engine: a shallow embedding of the
board model, terminal detection, and the minimax move search of
`Tic_Tac_Toe_Game_AI.py`, together with proofs of the specified
properties.

The Python board is a 3x3 grid of strings "", "X", "O"; cells are
embedded as the inductive type `Cell` and the grid as the 9-field
structure `Board`.  Indexing `board[r][c]` with `r, c` in 0..2 is
embedded as `bGet`/`bSet`.  The Python floats used by the search
(`-float('inf')`, `float('inf')` and the integer scores) are embedded
as `PyFloat`.  The in-place mutation and undo done by the recursive
search is embedded by threading the board state through the recursion
(`minimax_find_best_move` returns the final board next to its result),
and the unbounded Python recursion is embedded with a fuel parameter
(any fuel at least the number of empty cells gives the same result;
see the fuel-stability theorem).
-/

set_option maxRecDepth 10000

/-- A cell value: `e` is the empty string, `X` and `O` the two marks. -/
inductive Cell
  | e
  | X
  | O
deriving DecidableEq, Repr

/-- The 3x3 board: field `cRC` is the cell at row R, column C. -/
structure Board where
  c00 : Cell
  c01 : Cell
  c02 : Cell
  c10 : Cell
  c11 : Cell
  c12 : Cell
  c20 : Cell
  c21 : Cell
  c22 : Cell
deriving DecidableEq, Repr

/-- The nine coordinates in the row-major order of
`for r in range(3): for c in range(3)`. -/
def cells09 : List (Nat × Nat) :=
  [(0,0),(0,1),(0,2),(1,0),(1,1),(1,2),(2,0),(2,1),(2,2)]

/-- Reading `board[r][c]` for in-range indices (out-of-range reads an
arbitrary default; the game code only reads indices in 0..2 here). -/
def bGet (b : Board) (rc : Nat × Nat) : Cell :=
  match rc with
  | (0,0) => b.c00
  | (0,1) => b.c01
  | (0,2) => b.c02
  | (1,0) => b.c10
  | (1,1) => b.c11
  | (1,2) => b.c12
  | (2,0) => b.c20
  | (2,1) => b.c21
  | (2,2) => b.c22
  | _ => Cell.e

/-- Writing `board[r][c] = m` for in-range indices (out-of-range writes
are dropped; the game code only writes indices in 0..2 here). -/
def bSet (b : Board) (rc : Nat × Nat) (m : Cell) : Board :=
  match rc with
  | (0,0) => { b with c00 := m }
  | (0,1) => { b with c01 := m }
  | (0,2) => { b with c02 := m }
  | (1,0) => { b with c10 := m }
  | (1,1) => { b with c11 := m }
  | (1,2) => { b with c12 := m }
  | (2,0) => { b with c20 := m }
  | (2,1) => { b with c21 := m }
  | (2,2) => { b with c22 := m }
  | _ => b

/-- The Python float values reachable in the search: `-float('inf')`,
`float('inf')`, and integer scores. -/
inductive PyFloat
  | negInf
  | posInf
  | int (n : Int)
deriving DecidableEq, Repr

/-- Python `a > b` on the above float values. -/
def pyGt : PyFloat → PyFloat → Bool
  | PyFloat.negInf, _ => false
  | PyFloat.posInf, PyFloat.posInf => false
  | PyFloat.posInf, _ => true
  | PyFloat.int _, PyFloat.posInf => false
  | PyFloat.int _, PyFloat.negInf => true
  | PyFloat.int m, PyFloat.int n => decide (n < m)

/-- Python `a < b` on the above float values. -/
def pyLt (a b : PyFloat) : Bool := pyGt b a

/-- `_check_winner_board(board)`: scan the three rows, then the three
columns, then the main diagonal, then the anti-diagonal, and return the
mark of the first line whose three cells agree and are non-empty. -/
def check_winner_board (b : Board) : Option Cell :=
  if b.c00 = b.c01 ∧ b.c01 = b.c02 ∧ b.c02 ≠ Cell.e then some b.c00
  else if b.c10 = b.c11 ∧ b.c11 = b.c12 ∧ b.c12 ≠ Cell.e then some b.c10
  else if b.c20 = b.c21 ∧ b.c21 = b.c22 ∧ b.c22 ≠ Cell.e then some b.c20
  else if b.c00 = b.c10 ∧ b.c10 = b.c20 ∧ b.c20 ≠ Cell.e then some b.c00
  else if b.c01 = b.c11 ∧ b.c11 = b.c21 ∧ b.c21 ≠ Cell.e then some b.c01
  else if b.c02 = b.c12 ∧ b.c12 = b.c22 ∧ b.c22 ≠ Cell.e then some b.c02
  else if b.c00 = b.c11 ∧ b.c11 = b.c22 ∧ b.c22 ≠ Cell.e then some b.c00
  else if b.c02 = b.c11 ∧ b.c11 = b.c20 ∧ b.c20 ≠ Cell.e then some b.c02
  else none

/-- `check_winner(self)` of the GUI class: for each `i` in 0..2 it
checks row `i` and then column `i`, and finally the two diagonals. -/
def check_winner (b : Board) : Option Cell :=
  if b.c00 = b.c01 ∧ b.c01 = b.c02 ∧ b.c02 ≠ Cell.e then some b.c00
  else if b.c00 = b.c10 ∧ b.c10 = b.c20 ∧ b.c20 ≠ Cell.e then some b.c00
  else if b.c10 = b.c11 ∧ b.c11 = b.c12 ∧ b.c12 ≠ Cell.e then some b.c10
  else if b.c01 = b.c11 ∧ b.c11 = b.c21 ∧ b.c21 ≠ Cell.e then some b.c01
  else if b.c20 = b.c21 ∧ b.c21 = b.c22 ∧ b.c22 ≠ Cell.e then some b.c20
  else if b.c02 = b.c12 ∧ b.c12 = b.c22 ∧ b.c22 ≠ Cell.e then some b.c02
  else if b.c00 = b.c11 ∧ b.c11 = b.c22 ∧ b.c22 ≠ Cell.e then some b.c00
  else if b.c02 = b.c11 ∧ b.c11 = b.c20 ∧ b.c20 ≠ Cell.e then some b.c02
  else none

/-- `_is_full_board(board)`: every cell is non-empty. -/
def is_full_board (b : Board) : Bool :=
  cells09.all (fun rc => bGet b rc ≠ Cell.e)

/-- `is_full(self)` of the GUI class: every button text is non-empty. -/
def is_full (b : Board) : Bool :=
  cells09.all (fun rc => bGet b rc ≠ Cell.e)

/-- The result of the end-of-game check. -/
inductive Outcome
  | win (m : Cell)
  | draw
  | ongoing
deriving DecidableEq, Repr

/-- The outcome decided by `show_result(winner)` where
`winner = check_winner()`: a winner gives a win, else a full board gives
a draw, else the game goes on. -/
def show_result_outcome (b : Board) : Outcome :=
  match check_winner b with
  | some Cell.X => Outcome.win Cell.X
  | some Cell.O => Outcome.win Cell.O
  | _ => if is_full b then Outcome.draw else Outcome.ongoing

/-- The iteration over all cells in `_minimax_find_best_move`, with the
in-place mutation embedded by threading the board: for each coordinate
of an empty cell, place `mark`, run `rec` on the resulting board, undo
the placement on the board returned by `rec`, and keep the first score
that strictly improves on the accumulator under `better`. -/
def mmFold (rec : Board → (PyFloat × Option (Nat × Nat)) × Board) (mark : Cell)
    (better : PyFloat → PyFloat → Bool) :
    List (Nat × Nat) → Board → PyFloat × Option (Nat × Nat) →
      (PyFloat × Option (Nat × Nat)) × Board
  | [], b, acc => (acc, b)
  | rc :: rest, b, acc =>
    if bGet b rc = Cell.e then
      let r1 := rec (bSet b rc mark)
      let b2 := bSet r1.2 rc Cell.e
      if better r1.1.1 acc.1 then mmFold rec mark better rest b2 (r1.1.1, some rc)
      else mmFold rec mark better rest b2 acc
    else mmFold rec mark better rest b acc

/-- `_minimax_find_best_move(board, is_maximizing_player)`.  The first
component is the Python return value `(score, move)`; the second
component is the board as it stands when the call returns (the Python
function mutates and reverts `board` in place).  `fuel` bounds the
recursion depth; any `fuel` at least the number of empty cells yields
the Python behaviour. -/
def minimax_find_best_move : Nat → Board → Bool → (PyFloat × Option (Nat × Nat)) × Board
  | fuel, b, maxi =>
    match check_winner_board b with
    | some Cell.O => ((PyFloat.int 1, none), b)
    | some Cell.X => ((PyFloat.int (-1), none), b)
    | _ =>
      if is_full_board b then ((PyFloat.int 0, none), b)
      else
        match fuel with
        | 0 => ((PyFloat.int 0, none), b)
        | fuel1 + 1 =>
          if maxi then
            mmFold (fun b2 => minimax_find_best_move fuel1 b2 false) Cell.O pyGt
              cells09 b (PyFloat.negInf, none)
          else
            mmFold (fun b2 => minimax_find_best_move fuel1 b2 true) Cell.X pyLt
              cells09 b (PyFloat.posInf, none)
termination_by structural fuel _ _ => fuel

/-- The pure mirror of `mmFold`: the board is never mutated, so it is
not threaded.  `mmFold` provably equals this once the mutation-undo
discipline is accounted for. -/
def mmFoldP (recP : Board → PyFloat × Option (Nat × Nat)) (mark : Cell)
    (better : PyFloat → PyFloat → Bool) :
    List (Nat × Nat) → Board → PyFloat × Option (Nat × Nat) → PyFloat × Option (Nat × Nat)
  | [], _, acc => acc
  | rc :: rest, b, acc =>
    if bGet b rc = Cell.e then
      if better (recP (bSet b rc mark)).1 acc.1 then
        mmFoldP recP mark better rest b ((recP (bSet b rc mark)).1, some rc)
      else mmFoldP recP mark better rest b acc
    else mmFoldP recP mark better rest b acc

/-- The pure mirror of `minimax_find_best_move`. -/
def minimaxP : Nat → Board → Bool → PyFloat × Option (Nat × Nat)
  | fuel, b, maxi =>
    match check_winner_board b with
    | some Cell.O => (PyFloat.int 1, none)
    | some Cell.X => (PyFloat.int (-1), none)
    | _ =>
      if is_full_board b then (PyFloat.int 0, none)
      else
        match fuel with
        | 0 => (PyFloat.int 0, none)
        | fuel1 + 1 =>
          if maxi then
            mmFoldP (fun b2 => minimaxP fuel1 b2 false) Cell.O pyGt
              cells09 b (PyFloat.negInf, none)
          else
            mmFoldP (fun b2 => minimaxP fuel1 b2 true) Cell.X pyLt
              cells09 b (PyFloat.posInf, none)
termination_by structural fuel _ _ => fuel

/-- The number of empty cells: the decreasing measure of the search. -/
def emptyCount (b : Board) : Nat :=
  (if b.c00 = Cell.e then 1 else 0) + (if b.c01 = Cell.e then 1 else 0) +
  (if b.c02 = Cell.e then 1 else 0) + (if b.c10 = Cell.e then 1 else 0) +
  (if b.c11 = Cell.e then 1 else 0) + (if b.c12 = Cell.e then 1 else 0) +
  (if b.c20 = Cell.e then 1 else 0) + (if b.c21 = Cell.e then 1 else 0) +
  (if b.c22 = Cell.e then 1 else 0)

/-- The board at game start: all cells empty. -/
def emptyBoard : Board :=
  ⟨Cell.e, Cell.e, Cell.e, Cell.e, Cell.e, Cell.e, Cell.e, Cell.e, Cell.e⟩

/-- The eight winning lines, as coordinate triples, in the scan order
stated by the spec: the three rows, the three columns, the main
diagonal, the anti-diagonal. -/
def lineList : List ((Nat × Nat) × (Nat × Nat) × (Nat × Nat)) :=
  [((0,0),(0,1),(0,2)), ((1,0),(1,1),(1,2)), ((2,0),(2,1),(2,2)),
   ((0,0),(1,0),(2,0)), ((0,1),(1,1),(2,1)), ((0,2),(1,2),(2,2)),
   ((0,0),(1,1),(2,2)), ((0,2),(1,1),(2,0))]

/-- The mark completing one line, if its three cells agree and are
non-empty. -/
def lineWinner (b : Board) (l : (Nat × Nat) × (Nat × Nat) × (Nat × Nat)) : Option Cell :=
  if bGet b l.1 = bGet b l.2.1 ∧ bGet b l.2.1 = bGet b l.2.2 ∧ bGet b l.2.2 ≠ Cell.e then
    some (bGet b l.1)
  else none

/-- The first `some` in a list of optional marks. -/
def firstSome : List (Option Cell) → Option Cell
  | [] => none
  | some m :: _ => some m
  | none :: rest => firstSome rest

/-- The winner scan as worded by the spec: the mark of the first
completed line in the order rows, columns, main diagonal,
anti-diagonal. -/
def winner_scan_spec (b : Board) : Option Cell :=
  firstSome (lineList.map (lineWinner b))

/-- Mark `m` owns some completed line of the board. -/
def hasLine (b : Board) (m : Cell) : Bool :=
  lineList.any (fun l => bGet b l.1 = m ∧ bGet b l.2.1 = m ∧ bGet b l.2.2 = m)

/-- The Python exceptions reachable in the embedded fragment. -/
inductive PyError
  | indexError
deriving DecidableEq, Repr

/-- One recorded move, as appended to `self._game_moves`: the row and
column arguments as passed (Python ints), and the mark placed. -/
structure MoveRec where
  row : Int
  col : Int
  player : Cell
deriving DecidableEq, Repr

/-- The selectable game modes. -/
inductive Mode
  | randomAI
  | centerAI
  | smartAI
  | pvp
deriving DecidableEq, Repr

/-- The game state touched by `player_move`: the board (the button
texts), `self.current_player`, `self.mode`, and `self._game_moves`. -/
structure GameState where
  board : Board
  current_player : Cell
  mode : Mode
  game_moves : List MoveRec
deriving DecidableEq, Repr

/-- Python list indexing on a length-3 list: indices 0..2 are direct,
-3..-1 wrap to index + 3, anything else raises IndexError. -/
def pyIndex3 (i : Int) : Option Nat :=
  if 0 ≤ i ∧ i < 3 then some i.toNat
  else if -3 ≤ i ∧ i < 0 then some (i + 3).toNat
  else none

/-- `player_move(self, i, j)`: read `self.buttons[i][j]` (Python list
indexing, so negative indices wrap and far out-of-range indices raise
IndexError); if the cell is empty, place the current player's mark,
append the move (with the original `i`, `j`) to the move history, and
in player-versus-player mode switch the current player when the game
goes on; if the cell is occupied, do nothing. -/
def player_move (s : GameState) (i j : Int) : Except PyError GameState :=
  match pyIndex3 i with
  | none => Except.error PyError.indexError
  | some r =>
    match pyIndex3 j with
    | none => Except.error PyError.indexError
    | some c =>
      if bGet s.board (r, c) = Cell.e then
        let b2 := bSet s.board (r, c) s.current_player
        let moves2 := s.game_moves ++ [⟨i, j, s.current_player⟩]
        if check_winner b2 = none ∧ is_full b2 = false then
          if s.mode = Mode.pvp then
            Except.ok ⟨b2, if s.current_player = Cell.X then Cell.O else Cell.X,
              s.mode, moves2⟩
          else Except.ok ⟨b2, s.current_player, s.mode, moves2⟩
        else Except.ok ⟨b2, s.current_player, s.mode, moves2⟩
      else Except.ok s

/-- The game positions reachable when the human plays X with any legal
moves and the Smart AI plays O by the minimax search, stopping at the
first terminal board.  The Bool is true when it is O's turn.  The AI
step applies `_minimax_find_best_move(board, True)` exactly as
`ai_move` does in Smart AI mode. -/
inductive MMReach : Board → Bool → Prop
  | start : MMReach emptyBoard false
  | xstep (b : Board) (rc : Nat × Nat) : MMReach b false →
      show_result_outcome b = Outcome.ongoing → rc ∈ cells09 → bGet b rc = Cell.e →
      MMReach (bSet b rc Cell.X) true
  | ostep (b : Board) (rc : Nat × Nat) : MMReach b true →
      show_result_outcome b = Outcome.ongoing →
      (minimax_find_best_move 9 b true).1.2 = some rc →
      MMReach (bSet b rc Cell.O) false

/-- The game positions reachable by any alternating legal play, X
first, stopping at the first terminal board.  The Bool is true when it
is O's turn. -/
inductive AnyReach : Board → Bool → Prop
  | start : AnyReach emptyBoard false
  | step (b : Board) (t : Bool) (rc : Nat × Nat) : AnyReach b t →
      show_result_outcome b = Outcome.ongoing → rc ∈ cells09 → bGet b rc = Cell.e →
      AnyReach (bSet b rc (if t then Cell.O else Cell.X)) (!t)

/-- The cells in an order that lets the never-lose check below find a
good O reply early (the first tried cell is the centre); it holds the
same cells as `cells09`. -/
def cellsCF : List (Nat × Nat) :=
  [(1,1),(0,0),(0,2),(2,0),(2,2),(0,1),(1,0),(1,2),(2,1)]

/-- The side O never loses from this position: at a terminal board X
has not won; at an O turn some empty cell keeps O safe; at an X turn
every empty cell keeps O safe.  The Bool is true when it is O's turn.
The terminal tests are those of the search base case. -/
def oSafe : Nat → Board → Bool → Bool
  | fuel, b, oTurn =>
    match check_winner_board b with
    | some Cell.X => false
    | some Cell.O => true
    | _ =>
      if is_full_board b then true
      else
        match fuel with
        | 0 => false
        | fuel1 + 1 =>
          if oTurn then
            cellsCF.any (fun rc =>
              if bGet b rc = Cell.e then oSafe fuel1 (bSet b rc Cell.O) false else false)
          else
            cellsCF.all (fun rc =>
              if bGet b rc = Cell.e then oSafe fuel1 (bSet b rc Cell.X) true else true)
termination_by structural fuel _ _ => fuel

/-- Scores that are no loss for O: the score is a number at least 0 or
plus infinity. -/
def sNonNeg : PyFloat → Bool
  | PyFloat.negInf => false
  | PyFloat.posInf => true
  | PyFloat.int n => decide (0 ≤ n)

/-- The board of the spec's blocking scenario: X at (0,0) and (1,1),
all other cells empty. -/
def c2Board : Board :=
  ⟨Cell.X, Cell.e, Cell.e, Cell.e, Cell.X, Cell.e, Cell.e, Cell.e, Cell.e⟩

/-- One step of the best-score selection loop, on the accumulator
`(best score so far, best move so far)`. -/
def stepFn (f : Nat × Nat → PyFloat) (better : PyFloat → PyFloat → Bool)
    (acc : PyFloat × Option (Nat × Nat)) (x : Nat × Nat) : PyFloat × Option (Nat × Nat) :=
  if better (f x) acc.1 then (f x, some x) else acc

/-- The best score component of the selection loop. -/
def bestVal (f : Nat × Nat → PyFloat) (better : PyFloat → PyFloat → Bool) :
    List (Nat × Nat) → PyFloat → PyFloat
  | [], a => a
  | x :: rest, a => bestVal f better rest (if better (f x) a then f x else a)

/-- The cells still empty on a board, in row-major order. -/
def empty_cells (b : Board) : List (Nat × Nat) :=
  cells09.filter (fun rc => bGet b rc == Cell.e)

/-- The score `_minimax_find_best_move` assigns to playing the side-to-
move's mark at `rc` and searching on (the side to move places `O` when
maximizing, `X` when minimizing, and the recursive call flips the
flag). -/
def child_score (fuel : Nat) (b : Board) (maxi : Bool) (rc : Nat × Nat) : PyFloat :=
  (minimax_find_best_move fuel (bSet b rc (if maxi then Cell.O else Cell.X)) (!maxi)).1.1

/-- The best child score achievable for the side to move: the maximum
over the empty cells when maximizing, the minimum when minimizing. -/
def best_child_score (fuel : Nat) (b : Board) (maxi : Bool) : PyFloat :=
  bestVal (child_score fuel b maxi) (if maxi then pyGt else pyLt) (empty_cells b)
    (if maxi then PyFloat.negInf else PyFloat.posInf)

/-- A demonstration board that is full and has a completed X line
(the top row), used to witness the evaluation-order properties. -/
def demoFullX : Board :=
  ⟨Cell.X, Cell.X, Cell.X, Cell.O, Cell.O, Cell.X, Cell.O, Cell.X, Cell.O⟩


theorem bset_bset_restore : ∀ rc ∈ cells09, ∀ (b : Board) (m : Cell),
    bGet b rc = Cell.e → bSet (bSet b rc m) rc Cell.e = b := by
  intro rc hrc
  fin_cases hrc <;>
    (intro b m h
     rcases b with ⟨a1, a2, a3, a4, a5, a6, a7, a8, a9⟩
     simp only [bGet] at h
     subst h
     rfl)

theorem bget_bset_same : ∀ rc ∈ cells09, ∀ (b : Board) (m : Cell),
    bGet (bSet b rc m) rc = m := by
  intro rc hrc
  fin_cases hrc <;> (intro b m; rfl)

theorem bget_bset_ne : ∀ rc ∈ cells09, ∀ cell ∈ cells09, cell ≠ rc →
    ∀ (b : Board) (m : Cell), bGet (bSet b rc m) cell = bGet b cell := by
  intro rc hrc cell hcell
  fin_cases hrc <;> fin_cases hcell <;> (intro hne b m) <;>
    first
      | rfl
      | exact absurd rfl hne

theorem emptyCount_bset : ∀ rc ∈ cells09, ∀ (b : Board) (m : Cell),
    bGet b rc = Cell.e → m ≠ Cell.e →
    emptyCount (bSet b rc m) + 1 = emptyCount b := by
  intro rc hrc
  fin_cases hrc <;>
    (intro b m he hm
     rcases b with ⟨a1, a2, a3, a4, a5, a6, a7, a8, a9⟩
     simp only [bGet] at he
     subst he
     rcases m with _ | _ | _
     · exact absurd rfl hm
     · simp [emptyCount, bSet] <;> omega
     · simp [emptyCount, bSet] <;> omega)

theorem cellw_eq_zero (c : Cell) : ((if c = Cell.e then 1 else 0) = 0) ↔ c ≠ Cell.e := by
  cases c <;> simp

theorem cellw_le_one (c : Cell) : (if c = Cell.e then 1 else 0) ≤ 1 := by
  cases c <;> simp

theorem emptyCount_le9 (b : Board) : emptyCount b ≤ 9 := by
  rcases b with ⟨a1, a2, a3, a4, a5, a6, a7, a8, a9⟩
  have h1 := cellw_le_one a1
  have h2 := cellw_le_one a2
  have h3 := cellw_le_one a3
  have h4 := cellw_le_one a4
  have h5 := cellw_le_one a5
  have h6 := cellw_le_one a6
  have h7 := cellw_le_one a7
  have h8 := cellw_le_one a8
  have h9 := cellw_le_one a9
  simp only [emptyCount]
  omega

theorem emptyCount_empty : emptyCount emptyBoard = 9 := rfl

theorem is_full_eq_is_full_board (b : Board) : is_full b = is_full_board b := rfl

theorem not_full_exists_empty (b : Board) (h : is_full_board b = false) :
    ∃ rc ∈ cells09, bGet b rc = Cell.e := by
  rcases List.all_eq_false.mp h with ⟨rc, hrc, hne⟩
  exact ⟨rc, hrc, by simpa using hne⟩

theorem emptyCount_zero_full (b : Board) (h : emptyCount b = 0) :
    is_full_board b = true := by
  rcases b with ⟨a1, a2, a3, a4, a5, a6, a7, a8, a9⟩
  simp only [emptyCount] at h
  have h1 := (cellw_eq_zero a1).mp (by omega)
  have h2 := (cellw_eq_zero a2).mp (by omega)
  have h3 := (cellw_eq_zero a3).mp (by omega)
  have h4 := (cellw_eq_zero a4).mp (by omega)
  have h5 := (cellw_eq_zero a5).mp (by omega)
  have h6 := (cellw_eq_zero a6).mp (by omega)
  have h7 := (cellw_eq_zero a7).mp (by omega)
  have h8 := (cellw_eq_zero a8).mp (by omega)
  have h9 := (cellw_eq_zero a9).mp (by omega)
  simp only [is_full_board, cells09, List.all_cons, List.all_nil, bGet]
  simp [h1, h2, h3, h4, h5, h6, h7, h8, h9]

theorem emptyCount_pos (b : Board) (h : is_full_board b = false) :
    1 ≤ emptyCount b := by
  rcases Nat.eq_zero_or_pos (emptyCount b) with h0 | h0
  · rw [emptyCount_zero_full b h0] at h
    exact absurd h (by simp)
  · exact h0

theorem pyGt_asymm (x y : PyFloat) (h : pyGt x y = true) : pyGt y x = false := by
  rcases x with _ | _ | m <;> rcases y with _ | _ | n <;>
    simp_all [pyGt] <;> omega

theorem pyGt_trans (x y z : PyFloat) (h1 : pyGt x y = true) (h2 : pyGt y z = true) :
    pyGt x z = true := by
  rcases x with _ | _ | m <;> rcases y with _ | _ | n <;> rcases z with _ | _ | k <;>
    simp_all [pyGt] <;> omega

theorem pyLt_asymm (x y : PyFloat) (h : pyLt x y = true) : pyLt y x = false :=
  pyGt_asymm y x h

theorem pyLt_trans (x y z : PyFloat) (h1 : pyLt x y = true) (h2 : pyLt y z = true) :
    pyLt x z = true :=
  pyGt_trans z y x h2 h1

theorem py_nonneg_mono (x y : PyFloat) (h : pyGt x y = false) (hx : sNonNeg x = true) :
    sNonNeg y = true := by
  rcases x with _ | _ | m <;> rcases y with _ | _ | n <;>
    simp_all [pyGt, sNonNeg] <;> omega

theorem bestVal_ge (f : Nat × Nat → PyFloat) (better : PyFloat → PyFloat → Bool)
    (htr : ∀ x y z, better x y = true → better y z = true → better x z = true) :
    ∀ (l : List (Nat × Nat)) (a : PyFloat),
    bestVal f better l a = a ∨ better (bestVal f better l a) a = true := by
  intro l
  induction l with
  | nil => intro a; exact Or.inl rfl
  | cons x rest ih =>
    intro a
    by_cases hx : better (f x) a = true
    · rcases ih (f x) with h | h
      · right
        rw [bestVal, if_pos hx, h]
        exact hx
      · right
        rw [bestVal, if_pos hx]
        exact htr _ _ _ h hx
    · rw [bestVal, if_neg hx]
      exact ih a

theorem bestVal_attained (f : Nat × Nat → PyFloat) (better : PyFloat → PyFloat → Bool) :
    ∀ (l : List (Nat × Nat)) (a : PyFloat),
    bestVal f better l a = a ∨ ∃ x ∈ l, bestVal f better l a = f x := by
  intro l
  induction l with
  | nil => intro a; exact Or.inl rfl
  | cons x rest ih =>
    intro a
    by_cases hx : better (f x) a = true
    · rw [bestVal, if_pos hx]
      rcases ih (f x) with h | ⟨y, hy, h⟩
      · exact Or.inr ⟨x, List.mem_cons_self x rest, h⟩
      · exact Or.inr ⟨y, List.mem_cons_of_mem x hy, h⟩
    · rw [bestVal, if_neg hx]
      rcases ih a with h | ⟨y, hy, h⟩
      · exact Or.inl h
      · exact Or.inr ⟨y, List.mem_cons_of_mem x hy, h⟩

theorem bestVal_ub (f : Nat × Nat → PyFloat) (better : PyFloat → PyFloat → Bool)
    (hasym : ∀ x y, better x y = true → better y x = false)
    (htr : ∀ x y z, better x y = true → better y z = true → better x z = true) :
    ∀ (l : List (Nat × Nat)) (a : PyFloat) (x : Nat × Nat), x ∈ l →
    better (f x) (bestVal f better l a) = false := by
  intro l
  induction l with
  | nil => intro a x hx; exact absurd hx (List.not_mem_nil x)
  | cons y rest ih =>
    intro a x hx
    rcases List.mem_cons.mp hx with rfl | hx2
    · by_cases hy : better (f x) a = true
      · rw [bestVal, if_pos hy]
        rcases bestVal_ge f better htr rest (f x) with h | h
        · rw [h]
          cases hxx : better (f x) (f x)
          · rfl
          · have h2 := hasym _ _ hxx
            rw [hxx] at h2
            exact h2
        · exact hasym _ _ h
      · rw [bestVal, if_neg hy]
        rcases bestVal_ge f better htr rest a with h | h
        · rw [h]; simpa using hy
        · by_cases hc : better (f x) (bestVal f better rest a) = true
          · exact absurd (htr _ _ _ hc h) hy
          · simpa using hc
    · rw [bestVal]
      exact ih _ x hx2

theorem foldl_step_fst (f : Nat × Nat → PyFloat) (better : PyFloat → PyFloat → Bool) :
    ∀ (l : List (Nat × Nat)) (a : PyFloat) (mo : Option (Nat × Nat)),
    (List.foldl (stepFn f better) (a, mo) l).1 = bestVal f better l a := by
  intro l
  induction l with
  | nil => intro a mo; rfl
  | cons x rest ih =>
    intro a mo
    rw [List.foldl_cons, bestVal]
    by_cases hx : better (f x) a = true
    · rw [stepFn, if_pos hx, if_pos hx]
      exact ih (f x) (some x)
    · rw [stepFn, if_neg hx, if_neg hx]
      exact ih a mo

theorem find?_cons_posH (p : Nat × Nat → Bool) (a : Nat × Nat) (l : List (Nat × Nat))
    (h : p a = true) : List.find? p (a :: l) = some a :=
  List.find?_cons_of_pos l h

theorem find?_cons_negH (p : Nat × Nat → Bool) (a : Nat × Nat) (l : List (Nat × Nat))
    (h : ¬ p a = true) : List.find? p (a :: l) = List.find? p l :=
  List.find?_cons_of_neg l h

theorem foldl_step_snd (f : Nat × Nat → PyFloat) (better : PyFloat → PyFloat → Bool)
    (hasym : ∀ x y, better x y = true → better y x = false)
    (htr : ∀ x y z, better x y = true → better y z = true → better x z = true) :
    ∀ (l : List (Nat × Nat)) (a : PyFloat) (mo : Option (Nat × Nat)),
    (List.foldl (stepFn f better) (a, mo) l).2 =
      if better (bestVal f better l a) a = true
      then l.find? (fun x => f x == bestVal f better l a)
      else mo := by
  intro l
  induction l with
  | nil =>
    intro a mo
    have : better (bestVal f better [] a) a = false := by
      rw [bestVal]
      cases hb : better a a
      · rfl
      · have h2 := hasym _ _ hb
        rw [hb] at h2
        exact h2
    rw [List.foldl_nil, this]
    simp
  | cons x rest ih =>
    intro a mo
    rw [List.foldl_cons, bestVal]
    by_cases hx : better (f x) a = true
    · rw [stepFn, if_pos hx, if_pos hx]
      have hMa : better (bestVal f better rest (f x)) a = true := by
        rcases bestVal_ge f better htr rest (f x) with h | h
        · rw [h]; exact hx
        · exact htr _ _ _ h hx
      rw [ih (f x) (some x), if_pos hMa]
      by_cases hM : better (bestVal f better rest (f x)) (f x) = true
      · have hne : ¬ ((f x == bestVal f better rest (f x)) = true) := by
          simp only [beq_iff_eq]
          intro hEq
          have h2 := hasym _ _ hM
          rw [← hEq] at hM h2
          rw [hM] at h2
          exact absurd h2 (by simp)
        rw [if_pos hM]
        exact (find?_cons_negH (fun y => f y == bestVal f better rest (f x)) x rest hne).symm
      · have hEq : bestVal f better rest (f x) = f x := by
          rcases bestVal_ge f better htr rest (f x) with h | h
          · exact h
          · exact absurd h hM
        rw [if_neg hM]
        exact (find?_cons_posH (fun y => f y == bestVal f better rest (f x)) x rest
          (by simp only [beq_iff_eq]; exact hEq.symm)).symm
    · rw [stepFn, if_neg hx, if_neg hx]
      rw [ih a mo]
      by_cases hMa : better (bestVal f better rest a) a = true
      · have hne : ¬ ((f x == bestVal f better rest a) = true) := by
          simp only [beq_iff_eq]
          intro hEq
          rw [← hEq] at hMa
          exact hx hMa
        rw [if_pos hMa, if_pos hMa]
        exact (find?_cons_negH (fun y => f y == bestVal f better rest a) x rest hne).symm
      · rw [if_neg hMa, if_neg hMa]

theorem mmFoldP_eq_foldl (recP : Board → PyFloat × Option (Nat × Nat)) (mark : Cell)
    (better : PyFloat → PyFloat → Bool) :
    ∀ (cells : List (Nat × Nat)) (b : Board) (acc : PyFloat × Option (Nat × Nat)),
    mmFoldP recP mark better cells b acc =
      List.foldl (stepFn (fun rc => (recP (bSet b rc mark)).1) better) acc
        (cells.filter (fun rc => bGet b rc == Cell.e)) := by
  intro cells
  induction cells with
  | nil => intro b acc; rfl
  | cons rc rest ih =>
    intro b acc
    by_cases he : bGet b rc = Cell.e
    · rw [List.filter_cons_of_pos (by simp [he]), List.foldl_cons]
      simp only [mmFoldP, if_pos he]
      by_cases hb : better (recP (bSet b rc mark)).1 acc.1 = true
      · rw [if_pos hb, stepFn, if_pos hb]
        exact ih b _
      · rw [if_neg hb, stepFn, if_neg hb]
        exact ih b acc
    · rw [List.filter_cons_of_neg (by simp [he])]
      simp only [mmFoldP, if_neg he]
      exact ih b acc

theorem mmFold_eq (rec : Board → (PyFloat × Option (Nat × Nat)) × Board)
    (recP : Board → PyFloat × Option (Nat × Nat)) (mark : Cell)
    (better : PyFloat → PyFloat → Bool)
    (hrec : ∀ b2, rec b2 = (recP b2, b2)) :
    ∀ (cells : List (Nat × Nat)), (∀ rc ∈ cells, rc ∈ cells09) →
    ∀ (b : Board) (acc : PyFloat × Option (Nat × Nat)),
    mmFold rec mark better cells b acc = (mmFoldP recP mark better cells b acc, b) := by
  intro cells
  induction cells with
  | nil => intro _ b acc; rfl
  | cons rc rest ih =>
    intro hsub b acc
    have hrc : rc ∈ cells09 := hsub rc (List.mem_cons_self rc rest)
    have hsub2 : ∀ x ∈ rest, x ∈ cells09 :=
      fun x hx => hsub x (List.mem_cons_of_mem rc hx)
    by_cases he : bGet b rc = Cell.e
    · simp only [mmFold, mmFoldP, if_pos he, hrec]
      rw [bset_bset_restore rc hrc b mark he]
      by_cases hb : better (recP (bSet b rc mark)).1 acc.1 = true
      · rw [if_pos hb, if_pos hb]
        exact ih hsub2 b _
      · rw [if_neg hb, if_neg hb]
        exact ih hsub2 b acc
    · simp only [mmFold, mmFoldP, if_neg he]
      exact ih hsub2 b acc

theorem minimax_eq_P : ∀ (fuel : Nat) (b : Board) (maxi : Bool),
    minimax_find_best_move fuel b maxi = (minimaxP fuel b maxi, b) := by
  intro fuel
  induction fuel with
  | zero =>
    intro b maxi
    rw [minimax_find_best_move, minimaxP]
    rcases hw : check_winner_board b with _ | m
    · simp only
      split_ifs <;> rfl
    · rcases m with _ | _ | _ <;> simp only <;> split_ifs <;> rfl
  | succ fuel1 ih =>
    intro b maxi
    rw [minimax_find_best_move, minimaxP]
    rcases hw : check_winner_board b with _ | m
    · simp only
      by_cases hf : is_full_board b = true
      · rw [if_pos hf, if_pos hf]
      · rw [if_neg hf, if_neg hf]
        rcases maxi with _ | _
        · simp only [Bool.false_eq_true, if_neg]
          exact mmFold_eq _ _ _ _ (fun b2 => ih b2 _) cells09 (fun x hx => hx) b _
        · simp only [if_pos]
          exact mmFold_eq _ _ _ _ (fun b2 => ih b2 _) cells09 (fun x hx => hx) b _
    · rcases m with _ | _ | _
      · simp only
        by_cases hf : is_full_board b = true
        · rw [if_pos hf, if_pos hf]
        · rw [if_neg hf, if_neg hf]
          rcases maxi with _ | _
          · simp only [Bool.false_eq_true, if_neg]
            exact mmFold_eq _ _ _ _ (fun b2 => ih b2 _) cells09 (fun x hx => hx) b _
          · simp only [if_pos]
            exact mmFold_eq _ _ _ _ (fun b2 => ih b2 _) cells09 (fun x hx => hx) b _
      · rfl
      · rfl

theorem minimaxP_winner_O (fuel : Nat) (b : Board) (maxi : Bool)
    (hw : check_winner_board b = some Cell.O) :
    minimaxP fuel b maxi = (PyFloat.int 1, none) := by
  rcases fuel with _ | fuel1 <;> rw [minimaxP, hw]

theorem minimaxP_winner_X (fuel : Nat) (b : Board) (maxi : Bool)
    (hw : check_winner_board b = some Cell.X) :
    minimaxP fuel b maxi = (PyFloat.int (-1), none) := by
  rcases fuel with _ | fuel1 <;> rw [minimaxP, hw]

theorem minimaxP_full (fuel : Nat) (b : Board) (maxi : Bool)
    (hw : check_winner_board b = none) (hf : is_full_board b = true) :
    minimaxP fuel b maxi = (PyFloat.int 0, none) := by
  rcases fuel with _ | fuel1 <;> (rw [minimaxP, hw]; simp only [hf, if_true])

theorem minimaxP_loop_max (fuel1 : Nat) (b : Board)
    (hw : check_winner_board b = none) (hf : is_full_board b = false) :
    minimaxP (fuel1 + 1) b true =
      List.foldl (stepFn (fun rc => (minimaxP fuel1 (bSet b rc Cell.O) false).1) pyGt)
        (PyFloat.negInf, none) (cells09.filter (fun rc => bGet b rc == Cell.e)) := by
  rw [minimaxP, hw]
  simp only [hf, Bool.false_eq_true, if_false, if_true]
  exact mmFoldP_eq_foldl _ _ _ cells09 b _

theorem minimaxP_loop_min (fuel1 : Nat) (b : Board)
    (hw : check_winner_board b = none) (hf : is_full_board b = false) :
    minimaxP (fuel1 + 1) b false =
      List.foldl (stepFn (fun rc => (minimaxP fuel1 (bSet b rc Cell.X) true).1) pyLt)
        (PyFloat.posInf, none) (cells09.filter (fun rc => bGet b rc == Cell.e)) := by
  rw [minimaxP, hw]
  simp only [hf, Bool.false_eq_true, if_false]
  exact mmFoldP_eq_foldl _ _ _ cells09 b _

theorem bestVal_int (f : Nat × Nat → PyFloat) (better : PyFloat → PyFloat → Bool) :
    ∀ (l : List (Nat × Nat)) (a : PyFloat), (∃ n : Int, a = PyFloat.int n) →
    (∀ x ∈ l, ∃ n : Int, f x = PyFloat.int n) →
    ∃ n : Int, bestVal f better l a = PyFloat.int n := by
  intro l
  induction l with
  | nil => intro a ha _; exact ha
  | cons x rest ih =>
    intro a ha hf
    rw [bestVal]
    by_cases hb : better (f x) a = true
    · rw [if_pos hb]
      exact ih (f x) (hf x (List.mem_cons_self x rest))
        (fun y hy => hf y (List.mem_cons_of_mem x hy))
    · rw [if_neg hb]
      exact ih a ha (fun y hy => hf y (List.mem_cons_of_mem x hy))

theorem bestVal_negInf_int (f : Nat × Nat → PyFloat) (l : List (Nat × Nat))
    (hl : l ≠ []) (hf : ∀ x ∈ l, ∃ n : Int, f x = PyFloat.int n) :
    ∃ n : Int, bestVal f pyGt l PyFloat.negInf = PyFloat.int n := by
  rcases l with _ | ⟨x, rest⟩
  · exact absurd rfl hl
  · rcases hf x (List.mem_cons_self x rest) with ⟨n, hn⟩
    rw [bestVal, hn]
    simp only [pyGt, if_true]
    exact bestVal_int f pyGt rest (PyFloat.int n) ⟨n, rfl⟩
      (fun y hy => hf y (List.mem_cons_of_mem x hy))

theorem bestVal_posInf_int (f : Nat × Nat → PyFloat) (l : List (Nat × Nat))
    (hl : l ≠ []) (hf : ∀ x ∈ l, ∃ n : Int, f x = PyFloat.int n) :
    ∃ n : Int, bestVal f pyLt l PyFloat.posInf = PyFloat.int n := by
  rcases l with _ | ⟨x, rest⟩
  · exact absurd rfl hl
  · rcases hf x (List.mem_cons_self x rest) with ⟨n, hn⟩
    rw [bestVal, hn]
    simp only [pyLt, pyGt, if_true]
    exact bestVal_int f pyLt rest (PyFloat.int n) ⟨n, rfl⟩
      (fun y hy => hf y (List.mem_cons_of_mem x hy))

theorem exists_mem_filter_empty (b : Board) (hf : is_full_board b = false) :
    ∃ rc, rc ∈ cells09.filter (fun rc => bGet b rc == Cell.e) := by
  rcases not_full_exists_empty b hf with ⟨rc, hrc, he⟩
  exact ⟨rc, List.mem_filter.mpr ⟨hrc, by simp [he]⟩⟩

theorem mem_filter_empty (b : Board) (rc : Nat × Nat)
    (h : rc ∈ cells09.filter (fun rc => bGet b rc == Cell.e)) :
    rc ∈ cells09 ∧ bGet b rc = Cell.e := by
  rcases List.mem_filter.mp h with ⟨h1, h2⟩
  exact ⟨h1, by simpa using h2⟩

theorem minimaxP_score_int : ∀ (fuel : Nat) (b : Board) (maxi : Bool),
    ∃ n : Int, (minimaxP fuel b maxi).1 = PyFloat.int n := by
  intro fuel
  induction fuel with
  | zero =>
    intro b maxi
    rw [minimaxP]
    rcases hw : check_winner_board b with _ | m
    · simp only
      split_ifs <;> exact ⟨_, rfl⟩
    · rcases m with _ | _ | _
      · simp only
        split_ifs <;> exact ⟨_, rfl⟩
      · exact ⟨-1, rfl⟩
      · exact ⟨1, rfl⟩
  | succ fuel1 ih =>
    intro b maxi
    rcases hw : check_winner_board b with _ | m
    case some =>
      rcases m with _ | _ | _
      · by_cases hfull : is_full_board b = true
        · rw [minimaxP, hw]
          simp only [hfull, if_true]
          exact ⟨0, rfl⟩
        · rw [minimaxP, hw]
          simp only [eq_false_of_ne_true hfull, Bool.false_eq_true, if_false]
          rcases maxi with _ | _
          · simp only [Bool.false_eq_true, if_false]
            rw [mmFoldP_eq_foldl, foldl_step_fst]
            rcases exists_mem_filter_empty b (eq_false_of_ne_true hfull) with ⟨rc0, hrc0⟩
            exact bestVal_posInf_int _ _ (List.ne_nil_of_mem hrc0)
              (fun y _ => ih (bSet b y Cell.X) true)
          · simp only [if_true]
            rw [mmFoldP_eq_foldl, foldl_step_fst]
            rcases exists_mem_filter_empty b (eq_false_of_ne_true hfull) with ⟨rc0, hrc0⟩
            exact bestVal_negInf_int _ _ (List.ne_nil_of_mem hrc0)
              (fun y _ => ih (bSet b y Cell.O) false)
      · rw [minimaxP_winner_X _ _ _ hw]; exact ⟨-1, rfl⟩
      · rw [minimaxP_winner_O _ _ _ hw]; exact ⟨1, rfl⟩
    case none =>
      by_cases hfull : is_full_board b = true
      · rw [minimaxP_full _ _ _ hw hfull]; exact ⟨0, rfl⟩
      · have hff := eq_false_of_ne_true hfull
        rcases exists_mem_filter_empty b hff with ⟨rc0, hrc0⟩
        rcases maxi with _ | _
        · rw [minimaxP_loop_min _ _ hw hff, foldl_step_fst]
          exact bestVal_posInf_int _ _ (List.ne_nil_of_mem hrc0)
            (fun y _ => ih (bSet b y Cell.X) true)
        · rw [minimaxP_loop_max _ _ hw hff, foldl_step_fst]
          exact bestVal_negInf_int _ _ (List.ne_nil_of_mem hrc0)
            (fun y _ => ih (bSet b y Cell.O) false)

theorem foldl_step_congr (f1 f2 : Nat × Nat → PyFloat) (better : PyFloat → PyFloat → Bool) :
    ∀ (l : List (Nat × Nat)), (∀ x ∈ l, f1 x = f2 x) →
    ∀ (acc : PyFloat × Option (Nat × Nat)),
    List.foldl (stepFn f1 better) acc l = List.foldl (stepFn f2 better) acc l := by
  intro l
  induction l with
  | nil => intro _ acc; rfl
  | cons x rest ih =>
    intro h acc
    rw [List.foldl_cons, List.foldl_cons]
    have hx := h x (List.mem_cons_self x rest)
    have hstep : stepFn f1 better acc x = stepFn f2 better acc x := by
      rw [stepFn, stepFn, hx]
    rw [hstep]
    exact ih (fun y hy => h y (List.mem_cons_of_mem x hy)) _

theorem check_winner_board_ne_e (b : Board) : check_winner_board b ≠ some Cell.e := by
  rw [check_winner_board]
  split_ifs <;> simp_all

theorem check_winner_ne_e (b : Board) : check_winner b ≠ some Cell.e := by
  rw [check_winner]
  split_ifs <;> simp_all

theorem minimaxP_fuel_pair : ∀ (f1 : Nat), ∀ (b : Board) (maxi : Bool) (f2 : Nat),
    emptyCount b ≤ f1 → emptyCount b ≤ f2 →
    minimaxP f1 b maxi = minimaxP f2 b maxi := by
  intro f1
  induction f1 with
  | zero =>
    intro b maxi f2 h1 _
    have hfull : is_full_board b = true := emptyCount_zero_full b (Nat.le_zero.mp h1)
    rcases hw : check_winner_board b with _ | m
    · rw [minimaxP_full 0 b maxi hw hfull, minimaxP_full f2 b maxi hw hfull]
    · rcases m with _ | _ | _
      · exact absurd hw (check_winner_board_ne_e b)
      · rw [minimaxP_winner_X 0 b maxi hw, minimaxP_winner_X f2 b maxi hw]
      · rw [minimaxP_winner_O 0 b maxi hw, minimaxP_winner_O f2 b maxi hw]
  | succ f11 ih =>
    intro b maxi f2 h1 h2
    rcases hw : check_winner_board b with _ | m
    case some =>
      rcases m with _ | _ | _
      · exact absurd hw (check_winner_board_ne_e b)
      · rw [minimaxP_winner_X _ b maxi hw, minimaxP_winner_X f2 b maxi hw]
      · rw [minimaxP_winner_O _ b maxi hw, minimaxP_winner_O f2 b maxi hw]
    case none =>
      by_cases hfull : is_full_board b = true
      · rw [minimaxP_full _ b maxi hw hfull, minimaxP_full f2 b maxi hw hfull]
      · have hff := eq_false_of_ne_true hfull
        have hpos := emptyCount_pos b hff
        rcases f2 with _ | f21
        · omega
        · have hcong : ∀ (mark : Cell), mark ≠ Cell.e → ∀ (mx : Bool),
              ∀ rc ∈ cells09.filter (fun rc => bGet b rc == Cell.e),
              (minimaxP f11 (bSet b rc mark) mx).1 = (minimaxP f21 (bSet b rc mark) mx).1 := by
            intro mark hmark mx rc hrc
            rcases mem_filter_empty b rc hrc with ⟨hrc9, he⟩
            have hec := emptyCount_bset rc hrc9 b mark he hmark
            rw [ih (bSet b rc mark) mx f21 (by omega) (by omega)]
          rcases maxi with _ | _
          · rw [minimaxP_loop_min _ _ hw hff, minimaxP_loop_min _ _ hw hff]
            exact foldl_step_congr _ _ _ _ (hcong Cell.X (by decide) true) _
          · rw [minimaxP_loop_max _ _ hw hff, minimaxP_loop_max _ _ hw hff]
            exact foldl_step_congr _ _ _ _ (hcong Cell.O (by decide) false) _

theorem minimaxP_fuel (fuel : Nat) (b : Board) (maxi : Bool) (h : emptyCount b ≤ fuel) :
    minimaxP fuel b maxi = minimaxP (emptyCount b) b maxi :=
  minimaxP_fuel_pair fuel b maxi (emptyCount b) h (Nat.le_refl _)

theorem firstSome_nil : firstSome [] = none := rfl

theorem firstSome_cons_ite (c : Prop) [Decidable c] (v : Cell) (L : List (Option Cell)) :
    firstSome ((if c then some v else none) :: L) = if c then some v else firstSome L := by
  split_ifs <;> rfl

theorem winner_scan_unfold (b : Board) :
    winner_scan_spec b =
      (if b.c00 = b.c01 ∧ b.c01 = b.c02 ∧ b.c02 ≠ Cell.e then some b.c00
      else if b.c10 = b.c11 ∧ b.c11 = b.c12 ∧ b.c12 ≠ Cell.e then some b.c10
      else if b.c20 = b.c21 ∧ b.c21 = b.c22 ∧ b.c22 ≠ Cell.e then some b.c20
      else if b.c00 = b.c10 ∧ b.c10 = b.c20 ∧ b.c20 ≠ Cell.e then some b.c00
      else if b.c01 = b.c11 ∧ b.c11 = b.c21 ∧ b.c21 ≠ Cell.e then some b.c01
      else if b.c02 = b.c12 ∧ b.c12 = b.c22 ∧ b.c22 ≠ Cell.e then some b.c02
      else if b.c00 = b.c11 ∧ b.c11 = b.c22 ∧ b.c22 ≠ Cell.e then some b.c00
      else if b.c02 = b.c11 ∧ b.c11 = b.c20 ∧ b.c20 ≠ Cell.e then some b.c02
      else none) := by
  rw [winner_scan_spec, lineList]
  simp only [List.map_cons, List.map_nil, lineWinner]
  simp only [firstSome_cons_ite, firstSome_nil]
  rfl

theorem check_winner_board_eq_spec (b : Board) :
    check_winner_board b = winner_scan_spec b := by
  rw [winner_scan_unfold, check_winner_board]

theorem check_winner_eq_spec (b : Board) :
    check_winner b = winner_scan_spec b := by
  rw [winner_scan_unfold, check_winner]
  split_ifs <;> simp_all

theorem check_winner_eq_board (b : Board) :
    check_winner b = check_winner_board b := by
  rw [check_winner_eq_spec, check_winner_board_eq_spec]

theorem ongoing_iff (b : Board) (h : show_result_outcome b = Outcome.ongoing) :
    check_winner b = none ∧ is_full b = false := by
  rw [show_result_outcome] at h
  rcases hw : check_winner b with _ | m
  · rw [hw] at h
    simp only at h
    constructor
    · rfl
    · by_cases hf : is_full b = true
      · rw [hf] at h; simp at h
      · exact eq_false_of_ne_true hf
  · rcases m with _ | _ | _
    · exact absurd hw (check_winner_ne_e b)
    · rw [hw] at h; simp at h
    · rw [hw] at h; simp at h

theorem outcome_of_winner (b : Board) (m : Cell) (h : check_winner b = some m) :
    show_result_outcome b = Outcome.win m := by
  rcases m with _ | _ | _
  · exact absurd h (check_winner_ne_e b)
  · rw [show_result_outcome, h]
  · rw [show_result_outcome, h]

theorem outcome_of_draw (b : Board) (hw : check_winner b = none) (hf : is_full b = true) :
    show_result_outcome b = Outcome.draw := by
  rw [show_result_outcome, hw]
  simp only [hf, if_true]

theorem outcome_of_ongoing (b : Board) (hw : check_winner b = none) (hf : is_full b = false) :
    show_result_outcome b = Outcome.ongoing := by
  rw [show_result_outcome, hw]
  simp only [hf, Bool.false_eq_true, if_false]

theorem lineList_cells_mem : ∀ l ∈ lineList,
    l.1 ∈ cells09 ∧ l.2.1 ∈ cells09 ∧ l.2.2 ∈ cells09 := by
  decide

theorem firstSome_none_iff : ∀ (L : List (Option Cell)),
    firstSome L = none ↔ ∀ o ∈ L, o = none := by
  intro L
  induction L with
  | nil => simp [firstSome]
  | cons o rest ih =>
    rcases o with _ | m
    · rw [firstSome]
      simp only [List.mem_cons]
      constructor
      · intro h y hy
        rcases hy with rfl | hy
        · rfl
        · exact ih.mp h y hy
      · intro h
        exact ih.mpr (fun y hy => h y (Or.inr hy))
    · rw [firstSome]
      simp only [List.mem_cons]
      constructor
      · intro h; exact absurd h (by simp)
      · intro h
        exact absurd (h (some m) (Or.inl rfl)) (by simp)

theorem hasLine_winner (b : Board) (m : Cell) (hm : m ≠ Cell.e)
    (h : hasLine b m = true) : winner_scan_spec b ≠ none := by
  rcases List.any_eq_true.mp h with ⟨l, hl, hpred⟩
  have hprops := of_decide_eq_true hpred
  intro hnone
  have hall := (firstSome_none_iff (lineList.map (lineWinner b))).mp hnone
  have hlw : lineWinner b l = none :=
    hall (lineWinner b l) (List.mem_map_of_mem (lineWinner b) hl)
  rw [lineWinner] at hlw
  rw [if_pos ⟨by rw [hprops.1, hprops.2.1], by rw [hprops.2.1, hprops.2.2],
    by rw [hprops.2.2]; exact hm⟩] at hlw
  exact Option.some_ne_none _ hlw

theorem hasLine_bset (b : Board) (rc : Nat × Nat) (hrc : rc ∈ cells09)
    (m m2 : Cell) (h : hasLine (bSet b rc m) m2 = true) :
    m2 = m ∨ hasLine b m2 = true := by
  rcases List.any_eq_true.mp h with ⟨l, hl, hpred⟩
  have hprops := of_decide_eq_true hpred
  rcases lineList_cells_mem l hl with ⟨hc1, hc2, hc3⟩
  by_cases h1 : l.1 = rc
  · left
    rw [← hprops.1, h1, bget_bset_same rc hrc]
  · by_cases h2 : l.2.1 = rc
    · left
      rw [← hprops.2.1, h2, bget_bset_same rc hrc]
    · by_cases h3 : l.2.2 = rc
      · left
        rw [← hprops.2.2, h3, bget_bset_same rc hrc]
      · right
        apply List.any_eq_true.mpr
        refine ⟨l, hl, decide_eq_true ?_⟩
        rw [← bget_bset_ne rc hrc l.1 hc1 h1 b m,
          ← bget_bset_ne rc hrc l.2.1 hc2 h2 b m,
          ← bget_bset_ne rc hrc l.2.2 hc3 h3 b m]
        exact hprops

theorem no_line_of_winner_none (b : Board) (hw : check_winner b = none) (m : Cell)
    (hm : m ≠ Cell.e) : hasLine b m = false := by
  by_cases h : hasLine b m = true
  · exfalso
    apply hasLine_winner b m hm h
    rw [← check_winner_eq_spec]
    exact hw
  · exact eq_false_of_ne_true h

theorem child_score_eq_P (fuel : Nat) (b : Board) (maxi : Bool) (rc : Nat × Nat) :
    child_score fuel b maxi rc =
      (minimaxP fuel (bSet b rc (if maxi then Cell.O else Cell.X)) (!maxi)).1 := by
  rw [child_score, minimax_eq_P]

theorem empty_cells_ne_nil (b : Board) (hf : is_full_board b = false) :
    empty_cells b ≠ [] := by
  rcases exists_mem_filter_empty b hf with ⟨rc, hrc⟩
  exact List.ne_nil_of_mem hrc

theorem child_score_int (fuel : Nat) (b : Board) (maxi : Bool) (rc : Nat × Nat) :
    ∃ n : Int, child_score fuel b maxi rc = PyFloat.int n := by
  rw [child_score_eq_P]
  exact minimaxP_score_int fuel _ (!maxi)

theorem minimax_char_max (fuel1 : Nat) (b : Board)
    (hw : check_winner_board b = none) (hf : is_full_board b = false) :
    (minimaxP (fuel1 + 1) b true).1 = best_child_score fuel1 b true ∧
    (minimaxP (fuel1 + 1) b true).2 =
      (empty_cells b).find?
        (fun rc => child_score fuel1 b true rc == best_child_score fuel1 b true) := by
  have hfn : (fun rc => (minimaxP fuel1 (bSet b rc Cell.O) false).1) =
      child_score fuel1 b true := by
    funext rc
    rw [child_score_eq_P]
    rfl
  have hbv : best_child_score fuel1 b true =
      bestVal (child_score fuel1 b true) pyGt (empty_cells b) PyFloat.negInf := rfl
  have hflt : (cells09.filter (fun rc => bGet b rc == Cell.e)) = empty_cells b := rfl
  have hint : ∃ n : Int,
      bestVal (child_score fuel1 b true) pyGt (empty_cells b) PyFloat.negInf =
        PyFloat.int n :=
    bestVal_negInf_int _ _ (empty_cells_ne_nil b hf)
      (fun y _ => child_score_int fuel1 b true y)
  constructor
  · rw [minimaxP_loop_max fuel1 b hw hf, hfn, hflt, foldl_step_fst, hbv]
  · rw [minimaxP_loop_max fuel1 b hw hf, hfn, hflt,
      foldl_step_snd _ _ pyGt_asymm pyGt_trans, hbv]
    rcases hint with ⟨n, hn⟩
    rw [hn, if_pos (show pyGt (PyFloat.int n) PyFloat.negInf = true from rfl)]

theorem minimax_char_min (fuel1 : Nat) (b : Board)
    (hw : check_winner_board b = none) (hf : is_full_board b = false) :
    (minimaxP (fuel1 + 1) b false).1 = best_child_score fuel1 b false ∧
    (minimaxP (fuel1 + 1) b false).2 =
      (empty_cells b).find?
        (fun rc => child_score fuel1 b false rc == best_child_score fuel1 b false) := by
  have hfn : (fun rc => (minimaxP fuel1 (bSet b rc Cell.X) true).1) =
      child_score fuel1 b false := by
    funext rc
    rw [child_score_eq_P]
    rfl
  have hbv : best_child_score fuel1 b false =
      bestVal (child_score fuel1 b false) pyLt (empty_cells b) PyFloat.posInf := rfl
  have hflt : (cells09.filter (fun rc => bGet b rc == Cell.e)) = empty_cells b := rfl
  have hint : ∃ n : Int,
      bestVal (child_score fuel1 b false) pyLt (empty_cells b) PyFloat.posInf =
        PyFloat.int n :=
    bestVal_posInf_int _ _ (empty_cells_ne_nil b hf)
      (fun y _ => child_score_int fuel1 b false y)
  constructor
  · rw [minimaxP_loop_min fuel1 b hw hf, hfn, hflt, foldl_step_fst, hbv]
  · rw [minimaxP_loop_min fuel1 b hw hf, hfn, hflt,
      foldl_step_snd _ _ pyLt_asymm pyLt_trans, hbv]
    rcases hint with ⟨n, hn⟩
    rw [hn, if_pos (show pyLt (PyFloat.int n) PyFloat.posInf = true from rfl)]

theorem minimax_move_exists (fuel1 : Nat) (b : Board) (maxi : Bool)
    (hw : check_winner_board b = none) (hf : is_full_board b = false) :
    ∃ rc, (minimaxP (fuel1 + 1) b maxi).2 = some rc ∧ rc ∈ cells09 ∧
      bGet b rc = Cell.e ∧
      child_score fuel1 b maxi rc = best_child_score fuel1 b maxi := by
  have hint : ∃ n : Int, best_child_score fuel1 b maxi = PyFloat.int n := by
    rcases maxi with _ | _
    · exact bestVal_posInf_int _ _ (empty_cells_ne_nil b hf)
        (fun y _ => child_score_int fuel1 b false y)
    · exact bestVal_negInf_int _ _ (empty_cells_ne_nil b hf)
        (fun y _ => child_score_int fuel1 b true y)
  have hatt : ∃ x ∈ empty_cells b,
      best_child_score fuel1 b maxi = child_score fuel1 b maxi x := by
    rcases maxi with _ | _
    · rcases bestVal_attained (child_score fuel1 b false) pyLt (empty_cells b)
        PyFloat.posInf with h | h
      · rcases hint with ⟨n, hn⟩
        rw [show best_child_score fuel1 b false =
            bestVal (child_score fuel1 b false) pyLt (empty_cells b) PyFloat.posInf
            from rfl, h] at hn
        exact absurd hn (by simp)
      · exact h
    · rcases bestVal_attained (child_score fuel1 b true) pyGt (empty_cells b)
        PyFloat.negInf with h | h
      · rcases hint with ⟨n, hn⟩
        rw [show best_child_score fuel1 b true =
            bestVal (child_score fuel1 b true) pyGt (empty_cells b) PyFloat.negInf
            from rfl, h] at hn
        exact absurd hn (by simp)
      · exact h
  have hchar : (minimaxP (fuel1 + 1) b maxi).2 =
      (empty_cells b).find?
        (fun rc => child_score fuel1 b maxi rc == best_child_score fuel1 b maxi) := by
    rcases maxi with _ | _
    · exact (minimax_char_min fuel1 b hw hf).2
    · exact (minimax_char_max fuel1 b hw hf).2
  rcases hatt with ⟨x, hx, hbx⟩
  have hsome : ((empty_cells b).find?
      (fun rc => child_score fuel1 b maxi rc == best_child_score fuel1 b maxi)).isSome := by
    rw [List.find?_isSome]
    exact ⟨x, hx, by simp [hbx.symm]⟩
  rcases Option.isSome_iff_exists.mp hsome with ⟨rc, hrc⟩
  refine ⟨rc, by rw [hchar, hrc], ?_, ?_, ?_⟩
  · exact (mem_filter_empty b rc (List.mem_of_find?_eq_some hrc)).1
  · exact (mem_filter_empty b rc (List.mem_of_find?_eq_some hrc)).2
  · have := List.find?_some hrc
    simpa using this

theorem minimaxP_score_range : ∀ (fuel : Nat) (b : Board) (maxi : Bool),
    emptyCount b ≤ fuel →
    ∃ n : Int, (minimaxP fuel b maxi).1 = PyFloat.int n ∧
      (n = -1 ∨ n = 0 ∨ n = 1) := by
  intro fuel
  induction fuel with
  | zero =>
    intro b maxi h1
    have hfull : is_full_board b = true := emptyCount_zero_full b (Nat.le_zero.mp h1)
    rcases hw : check_winner_board b with _ | m
    · rw [minimaxP_full 0 b maxi hw hfull]
      exact ⟨0, rfl, Or.inr (Or.inl rfl)⟩
    · rcases m with _ | _ | _
      · exact absurd hw (check_winner_board_ne_e b)
      · rw [minimaxP_winner_X 0 b maxi hw]
        exact ⟨-1, rfl, Or.inl rfl⟩
      · rw [minimaxP_winner_O 0 b maxi hw]
        exact ⟨1, rfl, Or.inr (Or.inr rfl)⟩
  | succ fuel1 ih =>
    intro b maxi h1
    rcases hw : check_winner_board b with _ | m
    case some =>
      rcases m with _ | _ | _
      · exact absurd hw (check_winner_board_ne_e b)
      · rw [minimaxP_winner_X _ b maxi hw]
        exact ⟨-1, rfl, Or.inl rfl⟩
      · rw [minimaxP_winner_O _ b maxi hw]
        exact ⟨1, rfl, Or.inr (Or.inr rfl)⟩
    case none =>
      by_cases hfull : is_full_board b = true
      · rw [minimaxP_full _ b maxi hw hfull]
        exact ⟨0, rfl, Or.inr (Or.inl rfl)⟩
      · have hff := eq_false_of_ne_true hfull
        rcases minimax_move_exists fuel1 b maxi hw hff with ⟨rc, _, hrc9, he, hbest⟩
        have hsc : (minimaxP (fuel1 + 1) b maxi).1 = best_child_score fuel1 b maxi := by
          rcases maxi with _ | _
          · exact (minimax_char_min fuel1 b hw hff).1
          · exact (minimax_char_max fuel1 b hw hff).1
        have hmark : (if maxi then Cell.O else Cell.X) ≠ Cell.e := by
          rcases maxi with _ | _ <;> simp
        have hec := emptyCount_bset rc hrc9 b (if maxi then Cell.O else Cell.X) he hmark
        rcases ih (bSet b rc (if maxi then Cell.O else Cell.X)) (!maxi) (by omega)
          with ⟨n, hn, hrange⟩
        refine ⟨n, ?_, hrange⟩
        rw [hsc, ← hbest, child_score_eq_P, hn]

theorem bestVal_nonneg_max (f : Nat × Nat → PyFloat) (l : List (Nat × Nat)) :
    sNonNeg (bestVal f pyGt l PyFloat.negInf) = true ↔
      ∃ x ∈ l, sNonNeg (f x) = true := by
  constructor
  · intro h
    rcases bestVal_attained f pyGt l PyFloat.negInf with hb | ⟨x, hx, hb⟩
    · rw [hb] at h
      exact absurd h (by simp [sNonNeg])
    · exact ⟨x, hx, by rw [← hb]; exact h⟩
  · rintro ⟨x, hx, hnn⟩
    exact py_nonneg_mono (f x) _
      (bestVal_ub f pyGt pyGt_asymm pyGt_trans l PyFloat.negInf x hx) hnn

theorem bestVal_nonneg_min (f : Nat × Nat → PyFloat) (l : List (Nat × Nat)) :
    sNonNeg (bestVal f pyLt l PyFloat.posInf) = true ↔
      ∀ x ∈ l, sNonNeg (f x) = true := by
  constructor
  · intro h x hx
    have hub := bestVal_ub f pyLt pyLt_asymm pyLt_trans l PyFloat.posInf x hx
    exact py_nonneg_mono _ (f x) hub h
  · intro h
    rcases bestVal_attained f pyLt l PyFloat.posInf with hb | ⟨x, hx, hb⟩
    · rw [hb]; rfl
    · rw [hb]; exact h x hx

theorem oSafe_winner_X (fuel : Nat) (b : Board) (t : Bool)
    (hw : check_winner_board b = some Cell.X) : oSafe fuel b t = false := by
  rcases fuel with _ | fuel1 <;> rw [oSafe, hw]

theorem oSafe_winner_O (fuel : Nat) (b : Board) (t : Bool)
    (hw : check_winner_board b = some Cell.O) : oSafe fuel b t = true := by
  rcases fuel with _ | fuel1 <;> rw [oSafe, hw]

theorem oSafe_full (fuel : Nat) (b : Board) (t : Bool)
    (hw : check_winner_board b = none) (hf : is_full_board b = true) :
    oSafe fuel b t = true := by
  rcases fuel with _ | fuel1 <;> (rw [oSafe, hw]; simp only [hf, if_true])

theorem oSafe_loop_O (fuel1 : Nat) (b : Board)
    (hw : check_winner_board b = none) (hf : is_full_board b = false) :
    oSafe (fuel1 + 1) b true =
      cellsCF.any (fun rc =>
        if bGet b rc = Cell.e then oSafe fuel1 (bSet b rc Cell.O) false else false) := by
  rw [oSafe, hw]
  simp only [hf, Bool.false_eq_true, if_false, if_true]

theorem oSafe_loop_X (fuel1 : Nat) (b : Board)
    (hw : check_winner_board b = none) (hf : is_full_board b = false) :
    oSafe (fuel1 + 1) b false =
      cellsCF.all (fun rc =>
        if bGet b rc = Cell.e then oSafe fuel1 (bSet b rc Cell.X) true else true) := by
  rw [oSafe, hw]
  simp only [hf, Bool.false_eq_true, if_false]

theorem cellsCF_sub : (∀ rc ∈ cellsCF, rc ∈ cells09) ∧ ∀ rc ∈ cells09, rc ∈ cellsCF := by
  decide

theorem oSafe_iff_score : ∀ (fuel : Nat) (b : Board) (oTurn : Bool),
    emptyCount b ≤ fuel →
    oSafe fuel b oTurn = sNonNeg (minimaxP fuel b oTurn).1 := by
  intro fuel
  induction fuel with
  | zero =>
    intro b oTurn h1
    have hfull : is_full_board b = true := emptyCount_zero_full b (Nat.le_zero.mp h1)
    rcases hw : check_winner_board b with _ | m
    · rw [minimaxP_full 0 b oTurn hw hfull, oSafe_full 0 b oTurn hw hfull]
      rfl
    · rcases m with _ | _ | _
      · exact absurd hw (check_winner_board_ne_e b)
      · rw [minimaxP_winner_X 0 b oTurn hw, oSafe_winner_X 0 b oTurn hw]
        rfl
      · rw [minimaxP_winner_O 0 b oTurn hw, oSafe_winner_O 0 b oTurn hw]
        rfl
  | succ fuel1 ih =>
    intro b oTurn h1
    rcases hw : check_winner_board b with _ | m
    case some =>
      rcases m with _ | _ | _
      · exact absurd hw (check_winner_board_ne_e b)
      · rw [minimaxP_winner_X _ b oTurn hw, oSafe_winner_X _ b oTurn hw]
        rfl
      · rw [minimaxP_winner_O _ b oTurn hw, oSafe_winner_O _ b oTurn hw]
        rfl
    case none =>
      by_cases hfull : is_full_board b = true
      · rw [minimaxP_full _ b oTurn hw hfull, oSafe_full _ b oTurn hw hfull]
        rfl
      · have hff := eq_false_of_ne_true hfull
        rcases oTurn with _ | _
        · -- X to move: minimizing
          rw [oSafe_loop_X fuel1 b hw hff]
          have hsc := (minimax_char_min fuel1 b hw hff).1
          rw [hsc, show best_child_score fuel1 b false =
            bestVal (child_score fuel1 b false) pyLt (empty_cells b) PyFloat.posInf
            from rfl]
          apply Bool.coe_iff_coe.mp
          rw [List.all_eq_true, bestVal_nonneg_min]
          constructor
          · intro h x hx
            rcases mem_filter_empty b x hx with ⟨h9, he⟩
            have hcf := cellsCF_sub.2 x h9
            have := h x hcf
            rw [if_pos he] at this
            have hec := emptyCount_bset x h9 b Cell.X he (by simp)
            rw [ih (bSet b x Cell.X) true (by omega)] at this
            rw [child_score_eq_P]
            simpa using this
          · intro h x hx
            by_cases he : bGet b x = Cell.e
            · rw [if_pos he]
              have h9 := cellsCF_sub.1 x hx
              have hmem : x ∈ empty_cells b :=
                List.mem_filter.mpr ⟨h9, by simp [he]⟩
              have := h x hmem
              rw [child_score_eq_P] at this
              have hec := emptyCount_bset x h9 b Cell.X he (by simp)
              rw [ih (bSet b x Cell.X) true (by omega)]
              simpa using this
            · rw [if_neg he]
        · -- O to move: maximizing
          rw [oSafe_loop_O fuel1 b hw hff]
          have hsc := (minimax_char_max fuel1 b hw hff).1
          rw [hsc, show best_child_score fuel1 b true =
            bestVal (child_score fuel1 b true) pyGt (empty_cells b) PyFloat.negInf
            from rfl]
          apply Bool.coe_iff_coe.mp
          rw [List.any_eq_true, bestVal_nonneg_max]
          constructor
          · rintro ⟨x, hx, hval⟩
            by_cases he : bGet b x = Cell.e
            · rw [if_pos he] at hval
              have h9 := cellsCF_sub.1 x hx
              have hmem : x ∈ empty_cells b :=
                List.mem_filter.mpr ⟨h9, by simp [he]⟩
              have hec := emptyCount_bset x h9 b Cell.O he (by simp)
              rw [ih (bSet b x Cell.O) false (by omega)] at hval
              refine ⟨x, hmem, ?_⟩
              rw [child_score_eq_P]
              simpa using hval
            · rw [if_neg he] at hval
              exact absurd hval (by simp)
          · rintro ⟨x, hx, hval⟩
            rcases mem_filter_empty b x hx with ⟨h9, he⟩
            refine ⟨x, cellsCF_sub.2 x h9, ?_⟩
            rw [if_pos he]
            have hec := emptyCount_bset x h9 b Cell.O he (by simp)
            rw [ih (bSet b x Cell.O) false (by omega)]
            rw [child_score_eq_P] at hval
            simpa using hval

set_option maxRecDepth 200000 in
set_option maxHeartbeats 40000000 in
theorem oSafe_after_11 : oSafe 8 (bSet emptyBoard (1, 1) Cell.X) true = true := by decide

set_option maxRecDepth 200000 in
set_option maxHeartbeats 40000000 in
theorem oSafe_after_00 : oSafe 8 (bSet emptyBoard (0, 0) Cell.X) true = true := by decide

set_option maxRecDepth 200000 in
set_option maxHeartbeats 40000000 in
theorem oSafe_after_02 : oSafe 8 (bSet emptyBoard (0, 2) Cell.X) true = true := by decide

set_option maxRecDepth 200000 in
set_option maxHeartbeats 40000000 in
theorem oSafe_after_20 : oSafe 8 (bSet emptyBoard (2, 0) Cell.X) true = true := by decide

set_option maxRecDepth 200000 in
set_option maxHeartbeats 40000000 in
theorem oSafe_after_22 : oSafe 8 (bSet emptyBoard (2, 2) Cell.X) true = true := by decide

set_option maxRecDepth 200000 in
set_option maxHeartbeats 40000000 in
theorem oSafe_after_01 : oSafe 8 (bSet emptyBoard (0, 1) Cell.X) true = true := by decide

set_option maxRecDepth 200000 in
set_option maxHeartbeats 40000000 in
theorem oSafe_after_10 : oSafe 8 (bSet emptyBoard (1, 0) Cell.X) true = true := by decide

set_option maxRecDepth 200000 in
set_option maxHeartbeats 40000000 in
theorem oSafe_after_12 : oSafe 8 (bSet emptyBoard (1, 2) Cell.X) true = true := by decide

set_option maxRecDepth 200000 in
set_option maxHeartbeats 40000000 in
theorem oSafe_after_21 : oSafe 8 (bSet emptyBoard (2, 1) Cell.X) true = true := by decide

theorem oSafe_start : oSafe 9 emptyBoard false = true := by
  rw [oSafe_loop_X 8 emptyBoard (by decide) (by decide)]
  apply List.all_eq_true.mpr
  intro rc hrc
  fin_cases hrc
  · rw [if_pos (show bGet emptyBoard (1, 1) = Cell.e from rfl)]; exact oSafe_after_11
  · rw [if_pos (show bGet emptyBoard (0, 0) = Cell.e from rfl)]; exact oSafe_after_00
  · rw [if_pos (show bGet emptyBoard (0, 2) = Cell.e from rfl)]; exact oSafe_after_02
  · rw [if_pos (show bGet emptyBoard (2, 0) = Cell.e from rfl)]; exact oSafe_after_20
  · rw [if_pos (show bGet emptyBoard (2, 2) = Cell.e from rfl)]; exact oSafe_after_22
  · rw [if_pos (show bGet emptyBoard (0, 1) = Cell.e from rfl)]; exact oSafe_after_01
  · rw [if_pos (show bGet emptyBoard (1, 0) = Cell.e from rfl)]; exact oSafe_after_10
  · rw [if_pos (show bGet emptyBoard (1, 2) = Cell.e from rfl)]; exact oSafe_after_12
  · rw [if_pos (show bGet emptyBoard (2, 1) = Cell.e from rfl)]; exact oSafe_after_21

theorem ongoing_board_facts (b : Board) (h : show_result_outcome b = Outcome.ongoing) :
    check_winner_board b = none ∧ is_full_board b = false := by
  rcases ongoing_iff b h with ⟨h1, h2⟩
  constructor
  · rw [← check_winner_eq_board]; exact h1
  · rw [← is_full_eq_is_full_board]; exact h2

theorem mmreach_safe : ∀ (b : Board) (t : Bool), MMReach b t →
    oSafe (emptyCount b) b t = true := by
  intro b t h
  induction h with
  | start =>
    rw [emptyCount_empty]
    exact oSafe_start
  | xstep b rc hreach hout hrc he ih =>
    rcases ongoing_board_facts b hout with ⟨hwb, hfb⟩
    have hec := emptyCount_bset rc hrc b Cell.X he (by simp)
    have hpos := emptyCount_pos b hfb
    have hb1 : emptyCount b - 1 + 1 = emptyCount b := by omega
    rw [← hb1, oSafe_loop_X _ b hwb hfb] at ih
    have hall := List.all_eq_true.mp ih rc (cellsCF_sub.2 rc hrc)
    rw [if_pos he] at hall
    have hecc : emptyCount (bSet b rc Cell.X) = emptyCount b - 1 := by omega
    rw [hecc]
    exact hall
  | ostep b rc hreach hout hmove ih =>
    rcases ongoing_board_facts b hout with ⟨hwb, hfb⟩
    have hpos := emptyCount_pos b hfb
    have hb1 : emptyCount b - 1 + 1 = emptyCount b := by omega
    have hmoveP : (minimaxP (emptyCount b - 1 + 1) b true).2 = some rc := by
      rw [hb1, ← minimaxP_fuel 9 b true (emptyCount_le9 b)]
      rw [minimax_eq_P] at hmove
      exact hmove
    rcases minimax_move_exists (emptyCount b - 1) b true hwb hfb with
      ⟨rc2, hsome, hrc9, he, hbest⟩
    have hrc2 : rc2 = rc := by
      rw [hmoveP] at hsome
      exact (Option.some_inj.mp hsome).symm
    subst hrc2
    have hsc : (minimaxP (emptyCount b - 1 + 1) b true).1 =
        child_score (emptyCount b - 1) b true rc2 := by
      rw [(minimax_char_max (emptyCount b - 1) b hwb hfb).1, hbest]
    have hnn : sNonNeg (minimaxP (emptyCount b - 1 + 1) b true).1 = true := by
      rw [hb1, ← oSafe_iff_score (emptyCount b) b true (Nat.le_refl _)]
      exact ih
    rw [hsc, child_score_eq_P] at hnn
    have hec := emptyCount_bset rc2 hrc9 b Cell.O he (by simp)
    have hecc : emptyCount (bSet b rc2 Cell.O) = emptyCount b - 1 := by omega
    rw [hecc, oSafe_iff_score (emptyCount b - 1) (bSet b rc2 Cell.O) false (by omega)]
    have hred : (if true then Cell.O else Cell.X) = Cell.O := rfl
    rw [hred] at hnn
    have hnot : (!true) = false := rfl
    rw [hnot] at hnn
    exact hnn

set_option maxRecDepth 200000 in
set_option maxHeartbeats 40000000 in
theorem c2_child_01 : (minimaxP 8 (bSet c2Board (0, 1) Cell.O) false).1 =
    PyFloat.int (-1) := by decide

set_option maxRecDepth 200000 in
set_option maxHeartbeats 40000000 in
theorem c2_child_02 : (minimaxP 8 (bSet c2Board (0, 2) Cell.O) false).1 =
    PyFloat.int (-1) := by decide

set_option maxRecDepth 200000 in
set_option maxHeartbeats 40000000 in
theorem c2_child_10 : (minimaxP 8 (bSet c2Board (1, 0) Cell.O) false).1 =
    PyFloat.int (-1) := by decide

set_option maxRecDepth 200000 in
set_option maxHeartbeats 40000000 in
theorem c2_child_12 : (minimaxP 8 (bSet c2Board (1, 2) Cell.O) false).1 =
    PyFloat.int (-1) := by decide

set_option maxRecDepth 200000 in
set_option maxHeartbeats 40000000 in
theorem c2_child_20 : (minimaxP 8 (bSet c2Board (2, 0) Cell.O) false).1 =
    PyFloat.int (-1) := by decide

set_option maxRecDepth 200000 in
set_option maxHeartbeats 40000000 in
theorem c2_child_21 : (minimaxP 8 (bSet c2Board (2, 1) Cell.O) false).1 =
    PyFloat.int (-1) := by decide

set_option maxRecDepth 200000 in
set_option maxHeartbeats 40000000 in
theorem c2_child_22 : (minimaxP 8 (bSet c2Board (2, 2) Cell.O) false).1 =
    PyFloat.int (-1) := by decide

theorem c2Board_eval : minimaxP 9 c2Board true =
    (PyFloat.int (-1), some ((0 : Nat), (1 : Nat))) := by
  rw [minimaxP_loop_max 8 c2Board (by decide) (by decide)]
  rw [show cells09.filter (fun rc => bGet c2Board rc == Cell.e) =
      [(0,1),(0,2),(1,0),(1,2),(2,0),(2,1),(2,2)] from rfl]
  simp only [List.foldl_cons, List.foldl_nil, stepFn]
  rw [c2_child_01, c2_child_02, c2_child_10, c2_child_12, c2_child_20, c2_child_21,
    c2_child_22]
  decide

theorem c2Board_eval_threaded : minimax_find_best_move 9 c2Board true =
    ((PyFloat.int (-1), some ((0 : Nat), (1 : Nat))), c2Board) := by
  rw [minimax_eq_P, c2Board_eval]

/-- C1: for every board reachable by alternating legal play with X
moving first, when O's moves are always chosen by
`_minimax_find_best_move(board, True)` and X plays any legal strategy,
no reachable position evaluates to a win for X: every reached position
is still ongoing, a win for O, or a draw.  In particular the final
terminal evaluation is Win(O) or Draw, never Win(X). -/
theorem c1_minimax_never_loses : ∀ (b : Board) (t : Bool), MMReach b t →
    show_result_outcome b = Outcome.ongoing ∨
    show_result_outcome b = Outcome.win Cell.O ∨
    show_result_outcome b = Outcome.draw := by
  intro b t h
  have hsafe := mmreach_safe b t h
  by_cases hong : show_result_outcome b = Outcome.ongoing
  · exact Or.inl hong
  · right
    rcases hw : check_winner b with _ | m
    · by_cases hf : is_full b = true
      · exact Or.inr (outcome_of_draw b hw hf)
      · exact absurd (outcome_of_ongoing b hw (eq_false_of_ne_true hf)) hong
    · rcases m with _ | _ | _
      · exact absurd hw (check_winner_ne_e b)
      · exfalso
        have hwb : check_winner_board b = some Cell.X := by
          rw [← check_winner_eq_board]; exact hw
        rw [oSafe_winner_X _ b t hwb] at hsafe
        exact absurd hsafe (by simp)
      · exact Or.inl (outcome_of_winner b Cell.O hw)

theorem c1_witness :
    show_result_outcome (bSet emptyBoard (0, 0) Cell.X) = Outcome.ongoing ∨
    show_result_outcome (bSet emptyBoard (0, 0) Cell.X) = Outcome.win Cell.O ∨
    show_result_outcome (bSet emptyBoard (0, 0) Cell.X) = Outcome.draw :=
  c1_minimax_never_loses _ true
    (MMReach.xstep emptyBoard (0, 0) MMReach.start (by decide) (by decide) (by decide))

/-- C2 counterexample: on the board with X at (0,0) and (1,1) and O to
move, `_minimax_find_best_move(board, True)` does not return the move
(2,2): X can force a win against every O reply, including the block at
(2,2), so every move scores -1 and the first-encountered empty cell
(0,1) wins the tie-break. -/
theorem c2_counterexample :
    (minimax_find_best_move 9 c2Board true).1.2 ≠ some (2, 2) := by
  rw [c2Board_eval_threaded]
  decide

/-- C2 (amended): on the board with X at (0,0) and (1,1) and O to move,
`_minimax_find_best_move(board, True)` returns score -1 and the move
(0,1) (the first empty cell in row-major order), not (2,2): all nine
replies lose for O under optimal X play, so the tie-break picks the
first empty cell scanned. -/
theorem c2_amended : (minimax_find_best_move 9 c2Board true).1 =
    (PyFloat.int (-1), some (0, 1)) := by
  rw [c2Board_eval_threaded]

/-- C3: on every non-terminal board, the move returned by
`_minimax_find_best_move` is the first empty cell in row-major order
whose child score equals the best achievable child score for the side
to move (the maximum over the empty cells' child scores when
maximizing, the minimum when minimizing); in particular ties are broken
by the earliest row-major position and the search is deterministic. -/
theorem c3_tie_break : ∀ (fuel : Nat) (b : Board) (maxi : Bool),
    check_winner_board b = none → is_full_board b = false →
    (minimax_find_best_move (fuel + 1) b maxi).1.2 =
      (empty_cells b).find?
        (fun rc => child_score fuel b maxi rc == best_child_score fuel b maxi) := by
  intro fuel b maxi hw hf
  have h2 : (minimax_find_best_move (fuel + 1) b maxi).1.2 =
      (minimaxP (fuel + 1) b maxi).2 := by
    rw [minimax_eq_P]
  rw [h2]
  rcases maxi with _ | _
  · exact (minimax_char_min fuel b hw hf).2
  · exact (minimax_char_max fuel b hw hf).2

theorem c3_witness :
    check_winner_board c2Board = none ∧ is_full_board c2Board = false ∧
    (minimax_find_best_move (7 + 1) c2Board true).1.2 =
      (empty_cells c2Board).find?
        (fun rc => child_score 7 c2Board true rc == best_child_score 7 c2Board true) :=
  ⟨by decide, by decide, c3_tie_break 7 c2Board true (by decide) (by decide)⟩

/-- C4: `_minimax_find_best_move` leaves its board argument exactly as
it found it: every hypothetical placement made during the search is
reverted, so the threaded board returned next to the result equals the
input board, for every board, flag and fuel. -/
theorem c4_board_restored : ∀ (fuel : Nat) (b : Board) (maxi : Bool),
    (minimax_find_best_move fuel b maxi).2 = b := by
  intro fuel b maxi
  rw [minimax_eq_P]

/-- C5: terminal evaluation puts the winner check first: a reported
winner gives Win(m) regardless of fullness (so a full board with a
completed line evaluates to Win, not Draw), a winnerless full board
gives Draw, and otherwise the game is ongoing; the search's base case
follows the same order, scoring a won board +1 or -1 before the draw test.
-/
theorem c5_evaluation_order : ∀ (b : Board),
    (∀ m, check_winner b = some m →
      show_result_outcome b = Outcome.win m ∧ show_result_outcome b ≠ Outcome.draw) ∧
    (check_winner b = none → is_full b = true →
      show_result_outcome b = Outcome.draw) ∧
    (check_winner b = none → is_full b = false →
      show_result_outcome b = Outcome.ongoing) ∧
    (∀ fuel maxi, check_winner_board b = some Cell.O →
      minimax_find_best_move fuel b maxi = ((PyFloat.int 1, none), b)) ∧
    (∀ fuel maxi, check_winner_board b = some Cell.X →
      minimax_find_best_move fuel b maxi = ((PyFloat.int (-1), none), b)) ∧
    (∀ fuel maxi, check_winner_board b = none → is_full_board b = true →
      minimax_find_best_move fuel b maxi = ((PyFloat.int 0, none), b)) := by
  intro b
  refine ⟨?_, ?_, ?_, ?_, ?_, ?_⟩
  · intro m hm
    have hwin := outcome_of_winner b m hm
    exact ⟨hwin, by rw [hwin]; simp⟩
  · exact outcome_of_draw b
  · exact outcome_of_ongoing b
  · intro fuel maxi hw
    rw [minimax_eq_P, minimaxP_winner_O fuel b maxi hw]
  · intro fuel maxi hw
    rw [minimax_eq_P, minimaxP_winner_X fuel b maxi hw]
  · intro fuel maxi hw hf
    rw [minimax_eq_P, minimaxP_full fuel b maxi hw hf]

theorem c5_witness :
    check_winner demoFullX = some Cell.X ∧ is_full demoFullX = true ∧
    show_result_outcome demoFullX = Outcome.win Cell.X ∧
    show_result_outcome demoFullX ≠ Outcome.draw ∧
    minimax_find_best_move 9 demoFullX true = ((PyFloat.int (-1), none), demoFullX) :=
  ⟨by decide, by decide,
    ((c5_evaluation_order demoFullX).1 Cell.X (by decide)).1,
    ((c5_evaluation_order demoFullX).1 Cell.X (by decide)).2,
    (c5_evaluation_order demoFullX).2.2.2.2.1 9 true (by decide)⟩

/-- C6: both winner checks return the mark of the first completed line
in the deterministic scan order rows, then columns, then main diagonal,
then anti-diagonal, on every board.  `_check_winner_board` scans in
exactly that order; the GUI `check_winner` interleaves row i and column
i but returns the same mark on every board, because a completed row and
a completed column always share their crossing cell. -/
theorem c6_scan_order : ∀ (b : Board),
    check_winner_board b = winner_scan_spec b ∧ check_winner b = winner_scan_spec b :=
  fun b => ⟨check_winner_board_eq_spec b, check_winner_eq_spec b⟩

/-- C7 counterexample: `player_move` does not reject out-of-range
indices: the row index -1 is outside 0..2, yet the move is accepted
(Python list indexing wraps it to row 2), the board is mutated and a
move with row -1 is appended, so the game state is changed and no
IllegalMove error exists. -/
theorem c7_counterexample :
    (¬ (0 ≤ (-1 : Int) ∧ (-1 : Int) < 3)) ∧
    player_move ⟨emptyBoard, Cell.X, Mode.smartAI, []⟩ (-1) 0 =
      Except.ok ⟨bSet emptyBoard (2, 0) Cell.X, Cell.X, Mode.smartAI,
        [⟨-1, 0, Cell.X⟩]⟩ ∧
    bSet emptyBoard (2, 0) Cell.X ≠ emptyBoard ∧
    ([(⟨-1, 0, Cell.X⟩ : MoveRec)] : List MoveRec) ≠ [] := by
  refine ⟨by decide, ?_, by decide, by decide⟩
  rfl

/-- C7 (amended): a move on an occupied in-range cell is silently
ignored, returning the state unchanged with no move appended and no
error raised (not an IllegalMove error as the spec asks); an index
outside Python's accepted range -3..2 raises IndexError and leaves the
state unchanged; indices in -3..-1 are not rejected but wrap
Python-style to index+3 and can mutate the board, as the counterexample
shows. -/
theorem c7_amended : ∀ (s : GameState) (i j : Int),
    (∀ r c, pyIndex3 i = some r → pyIndex3 j = some c →
      bGet s.board (r, c) ≠ Cell.e → player_move s i j = Except.ok s) ∧
    ((pyIndex3 i = none ∨ pyIndex3 j = none) →
      player_move s i j = Except.error PyError.indexError) := by
  intro s i j
  constructor
  · intro r c h1 h2 hocc
    rw [player_move, h1, h2]
    simp only [if_neg hocc]
  · intro h
    rcases hi : pyIndex3 i with _ | r
    · rw [player_move, hi]
    · rcases hj : pyIndex3 j with _ | c
      · rw [player_move, hi, hj]
      · rcases h with h | h
        · exact absurd hi (by rw [h]; simp)
        · exact absurd hj (by rw [h]; simp)

theorem c7_witness :
    (pyIndex3 0 = some 0 ∧
      bGet (bSet emptyBoard (0, 0) Cell.X) (0, 0) ≠ Cell.e ∧
      player_move ⟨bSet emptyBoard (0, 0) Cell.X, Cell.O, Mode.pvp, []⟩ 0 0 =
        Except.ok ⟨bSet emptyBoard (0, 0) Cell.X, Cell.O, Mode.pvp, []⟩) ∧
    (pyIndex3 5 = none ∧
      player_move ⟨emptyBoard, Cell.X, Mode.pvp, []⟩ 5 1 =
        Except.error PyError.indexError) :=
  ⟨⟨by decide, by decide,
    (c7_amended ⟨bSet emptyBoard (0, 0) Cell.X, Cell.O, Mode.pvp, []⟩ 0 0).1 0 0
      (by decide) (by decide) (by decide)⟩,
   ⟨by decide,
    (c7_amended ⟨emptyBoard, Cell.X, Mode.pvp, []⟩ 5 1).2 (Or.inl (by decide))⟩⟩

/-- C8: on every board reachable from the empty board by alternating
legal play stopping at the first terminal state, at most one mark has a
completed line: X and O never both own a completed line.  (A move is
only played on a winnerless board, and a single placed mark can only
complete lines of its own mark.) -/
theorem c8_no_double_win : ∀ (b : Board) (t : Bool), AnyReach b t →
    ¬ (hasLine b Cell.X = true ∧ hasLine b Cell.O = true) := by
  intro b t h
  induction h with
  | start =>
    rintro ⟨hX, _⟩
    exact absurd hX (by decide)
  | step b t rc hreach hout hrc he ih =>
    rintro ⟨hX, hO⟩
    rcases ongoing_iff b hout with ⟨hw, _⟩
    have hnoX : hasLine b Cell.X = false :=
      no_line_of_winner_none b hw Cell.X (by simp)
    have hnoO : hasLine b Cell.O = false :=
      no_line_of_winner_none b hw Cell.O (by simp)
    rcases hasLine_bset b rc hrc _ Cell.X hX with h1 | h1
    · rcases hasLine_bset b rc hrc _ Cell.O hO with h2 | h2
      · exact absurd (h1.trans h2.symm) (by decide)
      · rw [h2] at hnoO
        exact absurd hnoO (by simp)
    · rw [h1] at hnoX
      exact absurd hnoX (by simp)

theorem c8_witness :
    ¬ (hasLine (bSet emptyBoard (1, 1) Cell.X) Cell.X = true ∧
       hasLine (bSet emptyBoard (1, 1) Cell.X) Cell.O = true) :=
  c8_no_double_win _ _
    (AnyReach.step emptyBoard false (1, 1) AnyReach.start (by decide) (by decide)
      (by decide))

/-- C9: on every non-terminal board (no winner and at least one empty
cell), `_minimax_find_best_move` returns a pair whose move is not None
and designates an empty cell of the input board, and whose score is one
of -1, 0, +1; hence the tuple destructuring of the move in `ai_move`'s
Smart AI branch never fails on a non-terminal board. -/
theorem c9_nonterminal_shape : ∀ (fuel : Nat) (b : Board) (maxi : Bool),
    check_winner_board b = none → is_full_board b = false →
    emptyCount b ≤ fuel + 1 →
    ∃ rc n, (minimax_find_best_move (fuel + 1) b maxi).1 = (PyFloat.int n, some rc) ∧
      rc ∈ cells09 ∧ bGet b rc = Cell.e ∧ (n = -1 ∨ n = 0 ∨ n = 1) := by
  intro fuel b maxi hw hf hfuel
  have h1 : (minimax_find_best_move (fuel + 1) b maxi).1 =
      minimaxP (fuel + 1) b maxi := by
    rw [minimax_eq_P]
  rcases minimax_move_exists fuel b maxi hw hf with ⟨rc, hmove, hrc9, he, _⟩
  rcases minimaxP_score_range (fuel + 1) b maxi hfuel with ⟨n, hsc, hrange⟩
  refine ⟨rc, n, ?_, hrc9, he, hrange⟩
  rw [h1]
  exact Prod.ext hsc hmove

theorem c9_witness :
    check_winner_board emptyBoard = none ∧ is_full_board emptyBoard = false ∧
    emptyCount emptyBoard ≤ 9 ∧
    ∃ rc n, (minimax_find_best_move (8 + 1) emptyBoard true).1 =
        (PyFloat.int n, some rc) ∧
      rc ∈ cells09 ∧ bGet emptyBoard rc = Cell.e ∧ (n = -1 ∨ n = 0 ∨ n = 1) :=
  ⟨by decide, by decide, by decide,
    c9_nonterminal_shape 8 emptyBoard true (by decide) (by decide) (by decide)⟩

/-- C10: the search terminates on every board input: the number of
empty cells is a decreasing measure (placing a mark on an empty cell
strictly decreases it), it is bounded by 9, and any fuel at least the
number of empty cells yields the same result as fuel equal to the
number of empty cells, so the fueled embedding is stable and the
recursion depth is bounded by 9. -/
theorem c10_termination :
    (∀ (fuel : Nat) (b : Board) (maxi : Bool), emptyCount b ≤ fuel →
      minimax_find_best_move fuel b maxi =
        minimax_find_best_move (emptyCount b) b maxi) ∧
    (∀ (b : Board) (rc : Nat × Nat) (m : Cell), rc ∈ cells09 →
      bGet b rc = Cell.e → m ≠ Cell.e →
      emptyCount (bSet b rc m) < emptyCount b) ∧
    (∀ b : Board, emptyCount b ≤ 9) := by
  refine ⟨?_, ?_, emptyCount_le9⟩
  · intro fuel b maxi h
    rw [minimax_eq_P, minimax_eq_P, minimaxP_fuel fuel b maxi h]
  · intro b rc m hrc he hm
    have := emptyCount_bset rc hrc b m he hm
    omega

theorem c10_witness :
    emptyCount c2Board ≤ 9 ∧
    minimax_find_best_move 9 c2Board true =
      minimax_find_best_move (emptyCount c2Board) c2Board true ∧
    emptyCount (bSet c2Board (0, 1) Cell.O) < emptyCount c2Board :=
  ⟨by decide, c10_termination.1 9 c2Board true (by decide),
    c10_termination.2.1 c2Board (0, 1) Cell.O (by decide) (by decide) (by decide)⟩
